import Mathlib

/-!
Shallow embedding of the merge/persistence core of the Price-Volatility-Tracking
scraping pipeline (src/pipelines/csv_storage.py, url_processor.py,
pipeline_orchestrator.py), together with theorems settling the specification
claims about it.

Python values occurring in records are modelled by the inductive `Val`;
Python dicts are modelled as association lists in insertion order (`Dict`),
with `dictGet`/`dictSet` mirroring `d.get(k)` / `d[k] = v`.  The CSV file
contents are modelled by the in-memory mapping `existing_data` (url -> row)
that the storage functions maintain (`Store`); file I/O and CSV text encoding
are abstracted away at that boundary.
-/

namespace PVT

/-- A Python value as it occurs in scraped records: `None`, a string, an
integer, a boolean, or a list of values. -/
inductive Val where
  | none : Val
  | str : String → Val
  | int : Int → Val
  | bool : Bool → Val
  | list : List Val → Val

mutual
/-- Decidable equality for `Val` (nested inductive, so written by hand). -/
def Val.decEq : (a b : Val) → Decidable (a = b)
  | Val.none, Val.none => isTrue rfl
  | Val.none, Val.str _ => isFalse (fun h => Val.noConfusion h)
  | Val.none, Val.int _ => isFalse (fun h => Val.noConfusion h)
  | Val.none, Val.bool _ => isFalse (fun h => Val.noConfusion h)
  | Val.none, Val.list _ => isFalse (fun h => Val.noConfusion h)
  | Val.str _, Val.none => isFalse (fun h => Val.noConfusion h)
  | Val.str s, Val.str t =>
      if h : s = t then isTrue (by rw [h]) else isFalse (fun hh => h (Val.str.inj hh))
  | Val.str _, Val.int _ => isFalse (fun h => Val.noConfusion h)
  | Val.str _, Val.bool _ => isFalse (fun h => Val.noConfusion h)
  | Val.str _, Val.list _ => isFalse (fun h => Val.noConfusion h)
  | Val.int _, Val.none => isFalse (fun h => Val.noConfusion h)
  | Val.int _, Val.str _ => isFalse (fun h => Val.noConfusion h)
  | Val.int m, Val.int n =>
      if h : m = n then isTrue (by rw [h]) else isFalse (fun hh => h (Val.int.inj hh))
  | Val.int _, Val.bool _ => isFalse (fun h => Val.noConfusion h)
  | Val.int _, Val.list _ => isFalse (fun h => Val.noConfusion h)
  | Val.bool _, Val.none => isFalse (fun h => Val.noConfusion h)
  | Val.bool _, Val.str _ => isFalse (fun h => Val.noConfusion h)
  | Val.bool _, Val.int _ => isFalse (fun h => Val.noConfusion h)
  | Val.bool a, Val.bool b =>
      if h : a = b then isTrue (by rw [h]) else isFalse (fun hh => h (Val.bool.inj hh))
  | Val.bool _, Val.list _ => isFalse (fun h => Val.noConfusion h)
  | Val.list _, Val.none => isFalse (fun h => Val.noConfusion h)
  | Val.list _, Val.str _ => isFalse (fun h => Val.noConfusion h)
  | Val.list _, Val.int _ => isFalse (fun h => Val.noConfusion h)
  | Val.list _, Val.bool _ => isFalse (fun h => Val.noConfusion h)
  | Val.list l, Val.list m =>
      match Val.decEqList l m with
      | isTrue h => isTrue (by rw [h])
      | isFalse h => isFalse (fun hh => h (Val.list.inj hh))
  termination_by structural a => a

/-- Decidable equality for lists of `Val`. -/
def Val.decEqList : (l m : List Val) → Decidable (l = m)
  | [], [] => isTrue rfl
  | [], _ :: _ => isFalse (fun h => List.noConfusion h)
  | _ :: _, [] => isFalse (fun h => List.noConfusion h)
  | a :: l, b :: m =>
      match Val.decEq a b, Val.decEqList l m with
      | isTrue h1, isTrue h2 => isTrue (by rw [h1, h2])
      | isFalse h1, _ => isFalse (fun hh => h1 (List.cons.inj hh).1)
      | _, isFalse h2 => isFalse (fun hh => h2 (List.cons.inj hh).2)
  termination_by structural l => l
end

instance : DecidableEq Val := Val.decEq

/-- A Python dict in insertion order: association list from field name to value. -/
abbrev Dict := List (String × Val)

/-- The in-memory store state (`existing_data` in csv_storage.py): rows keyed
by the value of their `url` field, in insertion order. -/
abbrev Store := List (Val × Dict)

/-- `d.get(key)`: value of the first entry with this key, if any. -/
def dictGet : Dict → String → Option Val
  | [], _ => Option.none
  | (k, v) :: rest, key => if k = key then some v else dictGet rest key

/-- `d.get(key)` as Python sees it: absent keys yield the Python `None`. -/
def pyGet (d : Dict) (k : String) : Val :=
  (dictGet d k).getD Val.none

/-- `d.get(key, default)`. -/
def pyGetD (d : Dict) (k : String) (dflt : Val) : Val :=
  (dictGet d k).getD dflt

/-- `d[key] = v`: update the entry in place if the key is present, else append. -/
def dictSet : Dict → String → Val → Dict
  | [], key, v => [(key, v)]
  | (k, w) :: rest, key, v =>
      if k = key then (k, v) :: rest else (k, w) :: dictSet rest key v

/-- Python `str.strip()` on the character list (leading and trailing whitespace). -/
def stripChars (cs : List Char) : List Char :=
  ((cs.dropWhile Char.isWhitespace).reverse.dropWhile Char.isWhitespace).reverse

/-- Python `str.strip()`. -/
def pyStrip (s : String) : String :=
  String.mk (stripChars s.data)

/-- Python `str.lower()` (ASCII case folding, which is all the code relies on). -/
def pyLower (s : String) : String :=
  String.mk (s.data.map Char.toLower)

/-- Python `pat in s` on strings: substring containment. -/
def subChars : List Char → List Char → Bool
  | pat, [] => pat.isEmpty
  | pat, c :: rest => pat.isPrefixOf (c :: rest) || subChars pat rest

/-- Python `pat in s` for strings. -/
def pyIn (pat s : String) : Bool :=
  subChars pat.data s.data

/-- Python truthiness of a value (`if not listing_url: ...`). -/
def truthy : Val → Bool
  | Val.none => false
  | Val.str s => !s.data.isEmpty
  | Val.int n => decide (n ≠ 0)
  | Val.bool b => b
  | Val.list l => !l.isEmpty

mutual
/-- Python `str(v)`.  For strings nested inside lists Python uses `repr`
(quoted); the quoting is approximated by the plain text here — no claim
depends on stringifying lists. -/
def pyStr : Val → String
  | Val.none => "None"
  | Val.str s => s
  | Val.int n => toString n
  | Val.bool b => if b then "True" else "False"
  | Val.list l => "[" ++ pyStrJoin l ++ "]"

/-- Comma-joined rendering of list elements, as in Python list display. -/
def pyStrJoin : List Val → String
  | [] => ""
  | [v] => pyStr v
  | v :: w :: rest => pyStr v ++ ", " ++ pyStrJoin (w :: rest)
end

/-- `CSVStorageManager.is_valid_fieldname`: non-empty and not a synthetic
`column_<digits>` name. -/
def is_valid_fieldname (f : String) : Bool :=
  if f.data.isEmpty then false
  else if "column_".data.isPrefixOf f.data
          && !(f.data.drop 7).isEmpty
          && (f.data.drop 7).all Char.isDigit then false
  else true

/-- `CSVStorageManager._is_empty_value`: `None`, a blank/whitespace string,
one of the literal tokens none/null/false case-insensitively, or an empty
list.  Every other value (numbers, booleans, non-blank strings, non-empty
lists) is non-empty. -/
def is_empty_value : Val → Bool
  | Val.none => true
  | Val.str s =>
      (pyStrip s).data.isEmpty
        || (pyLower (pyStrip s) = "none" || pyLower (pyStrip s) = "null"
              || pyLower (pyStrip s) = "false")
  | Val.list l => l.isEmpty
  | Val.int _ => false
  | Val.bool _ => false

/-- `CSVStorageManager._normalize_value_for_comparison`.  The source computes
this for each merged field but never uses the result to decide anything. -/
def normalize_value_for_comparison : Val → String
  | Val.none => ""
  | Val.list l => pyStrJoin l
  | v => pyStr v

/-- One iteration of the loop in `CSVStorageManager._merge_listing_data`, for
a single `(key, new_value)` entry of the new listing:
invalid field names are skipped; a non-empty new value overwrites; an empty
new value with a non-empty existing value is ignored; when both sides are
`None`-or-absent the field is set to `None`; otherwise (existing present but
empty) nothing changes. -/
def merge_step (merged : Dict) (kv : String × Val) : Dict :=
  if is_valid_fieldname kv.fst = false then merged
  else if is_empty_value kv.snd = false then dictSet merged kv.fst kv.snd
  else if pyGet merged kv.fst ≠ Val.none
      ∧ is_empty_value (pyGet merged kv.fst) = false then merged
  else if pyGet merged kv.fst = Val.none then dictSet merged kv.fst Val.none
  else merged

/-- `CSVStorageManager._merge_listing_data`: start from a copy of the existing
row and fold `merge_step` over the entries of the new listing in order. -/
def merge_listing_data (existing_row new_listing : Dict) : Dict :=
  new_listing.foldl merge_step existing_row

/-- Deduplicate a list of strings (models building a Python `set`; which
occurrence survives is irrelevant because the result is sorted afterwards). -/
def dedupStr : List String → List String
  | [] => []
  | s :: rest => if s ∈ rest then dedupStr rest else s :: dedupStr rest

/-- Lexicographic code-point comparison on character lists (Python string
ordering, used by `sorted`). -/
def leChars : List Char → List Char → Bool
  | [], _ => true
  | _ :: _, [] => false
  | a :: s, b :: t =>
      if a.toNat < b.toNat then true
      else if b.toNat < a.toNat then false
      else leChars s t

/-- `s <= t` on strings by code points. -/
def strLe (s t : String) : Bool :=
  leChars s.data t.data

/-- Insert a string into a sorted list of strings. -/
def insertSorted (s : String) : List String → List String
  | [] => [s]
  | t :: rest => if strLe s t then s :: t :: rest else t :: insertSorted s rest

/-- Insertion sort on strings (models Python `sorted`). -/
def sortStrings : List String → List String
  | [] => []
  | s :: rest => insertSorted s (sortStrings rest)

/-- `sorted(set(...))` over field names, as the storage functions compute it. -/
def sortedFieldSet (l : List String) : List String :=
  sortStrings (dedupStr l)

/-- The keyword list hard-coded in `CSVStorageManager._is_technical_error`. -/
def technical_keywords : List String :=
  ["browsertype.launch", "xserver", "display", "xvfb", "browser has been closed"]

/-- `CSVStorageManager._is_technical_error`: the record's key set is exactly
`{error, url}` and the error text either contains one of the infrastructure
keywords (case-insensitively) or is longer than 500 characters. -/
def is_technical_error (listing : Dict) : Bool :=
  let ks := dedupStr (listing.map Prod.fst)
  let onlyErrorUrl :=
    (ks.all (fun k => k = "error" || k = "url") && ks.contains "error" && ks.contains "url")
      || (ks.length = 2 && ks.contains "error" && ks.contains "url")
  if onlyErrorUrl then
    let emsg := pyStr (pyGetD listing "error" (Val.str ""))
    technical_keywords.any (fun kw => pyIn kw (pyLower emsg)) || emsg.data.length > 500
  else false

/-- `existing_data[url]`: row stored under this url value, if any. -/
def storeGet : Store → Val → Option Dict
  | [], _ => Option.none
  | (u, row) :: rest, url => if u = url then some row else storeGet rest url

/-- `existing_data[url] = row`: replace in place or append. -/
def storeSet : Store → Val → Dict → Store
  | [], url, row => [(url, row)]
  | (u, r) :: rest, url, row =>
      if u = url then (u, row) :: rest else (u, r) :: storeSet rest url row

/-- Valid field names of one row, in order. -/
def validKeys (d : Dict) : List String :=
  (d.map Prod.fst).filter is_valid_fieldname

/-- Valid field names collected across all rows of the store
(`for listing_data in existing_data.values(): ...`). -/
def validKeysStore : Store → List String
  | [] => []
  | p :: rest => validKeys p.snd ++ validKeysStore rest

/-- The `all_fieldnames` union computed by `save_single_listing`: valid keys
of every row of the (already updated) store plus valid keys of the incoming
listing, as a sorted set. -/
def all_fieldnames_single (data : Store) (listing : Dict) : List String :=
  sortedFieldSet (validKeysStore data ++ validKeys listing)

/-- The merge-or-insert step of `save_single_listing`: merge into the row for
this url if present, otherwise insert a copy of the listing. -/
def save_merged_data (store : Store) (listing : Dict) : Store :=
  match storeGet store (pyGet listing "url") with
  | some row => storeSet store (pyGet listing "url") (merge_listing_data row listing)
  | Option.none => storeSet store (pyGet listing "url") listing

/-- `CSVStorageManager.save_single_listing`, at the level of the store
contents.  Returns `none` when no write happens (empty listing, missing or
falsy url, technical-error record, or empty field union), and
`some (header, data)` when the file is rewritten with this header and row
set.  The advisory lock and the CSV text round-trip are modelled separately
(`save_single_listing_flow`); this function is the read-merge-rewrite body. -/
def save_single_listing_write (store : Store) (listing : Dict) :
    Option (List String × Store) :=
  if listing.isEmpty then Option.none
  else if truthy (pyGet listing "url") = false then Option.none
  else if is_technical_error listing then Option.none
  else
    let data := save_merged_data store listing
    let fns := all_fieldnames_single data listing
    if fns.isEmpty then Option.none
    else some (fns, data)

/-- Store contents after `save_single_listing`: unchanged when no write
happens, otherwise the rewritten row set. -/
def save_single_listing_store (store : Store) (listing : Dict) : Store :=
  match save_single_listing_write store listing with
  | some r => r.snd
  | Option.none => store

/-- One iteration of the merge loop of `save_listings_batch`: skip listings
with a falsy url, merge into an existing row, or insert a copy. -/
def batch_merge_step (acc : Store) (listing : Dict) : Store :=
  if truthy (pyGet listing "url") = false then acc
  else
    match storeGet acc (pyGet listing "url") with
    | some row => storeSet acc (pyGet listing "url") (merge_listing_data row listing)
    | Option.none => storeSet acc (pyGet listing "url") listing

/-- `CSVStorageManager.save_listings_batch` at the level of the store
contents: load once, merge every listing against the evolving snapshot, then
rewrite once unless the batch or the field union is empty.  The seed
`existing_fieldnames` read from the file header is the set of valid keys of
the loaded rows. -/
def save_listings_batch_store (store : Store) (listings : List Dict) : Store :=
  if listings.isEmpty then store
  else
    let data := listings.foldl batch_merge_step store
    let fns := sortedFieldSet (validKeysStore store ++ validKeysStore data)
    if fns.isEmpty then store else data

/-- Per-field characterization of `merge_step` at its own key, used to state
and prove the merge lemmas: given the existing cell (`dictGet`) and the new
value, the resulting cell. -/
def mergeCell (k : String) (ev : Option Val) (v : Val) : Option Val :=
  if is_valid_fieldname k = false then ev
  else if is_empty_value v = false then some v
  else if ev.getD Val.none ≠ Val.none ∧ is_empty_value (ev.getD Val.none) = false then ev
  else if ev.getD Val.none = Val.none then some Val.none
  else ev

/-- The row stored for a given url, or the empty row when absent (an absent
row has every field absent, hence Python `None`, under `pyGet`). -/
def rowAt (s : Store) (u : Val) : Dict :=
  (storeGet s u).getD []

/-- The rejection checks at the top of `save_single_listing`, all performed
before any lock interaction: empty listing, missing-or-falsy `url`, or a
technical-error record. -/
def save_rejected (listing : Dict) : Bool :=
  listing.isEmpty || !truthy (pyGet listing "url") || is_technical_error listing

/-- File-system-visible state of one `save_single_listing` call: the store
contents and whether the sentinel `.lock` marker file exists. -/
structure SaveState where
  store : Store
  lockExists : Bool

/-- Control-flow model of `save_single_listing` around the read-merge-rewrite
body: after the rejection checks, the lock marker is created, the body runs
inside `try`, and the `finally` block removes the marker, swallowing an
error raised by the removal itself; a body exception is re-raised after the
cleanup.  `body` is the outcome of the read-merge-rewrite cycle (file I/O can
fail for external reasons, so it is an oracle here; on success it yields the
new store contents), and `unlinkRaises` says whether the marker removal
raises.  `_acquire_lock` only polls with a wait ceiling and always proceeds,
so it does not affect this state. -/
def save_single_listing_flow (st : SaveState) (listing : Dict)
    (body : Except String Store) (unlinkRaises : Bool) :
    SaveState × Except String Unit :=
  if save_rejected listing then (st, Except.ok ())
  else
    let locked : SaveState := { st with lockExists := true }
    let afterBody : SaveState :=
      match body with
      | Except.ok s2 => { locked with store := s2 }
      | Except.error _ => locked
    let cleaned : SaveState :=
      if unlinkRaises then afterBody else { afterBody with lockExists := false }
    match body with
    | Except.ok _ => (cleaned, Except.ok ())
    | Except.error e => (cleaned, Except.error e)

/-- Outcome of one `attempt_scrape` call inside `process_scrape_attempt`:
either it returns (possibly `None`, possibly an error record), or it raises. -/
inductive AttemptResult where
  | ok (r : Option Dict)
  | exc (msg : String)

/-- Python `key in d`. -/
def hasKey (d : Dict) (k : String) : Bool :=
  (dictGet d k).isSome

/-- Python truthiness of an `Optional[Dict]` result. -/
def truthyResult : Option Dict → Bool
  | Option.none => false
  | some d => !d.isEmpty

/-- `URLProcessor.process_scrape_attempt`: a truthy result without an `error`
field is returned; any other returned result leads to `None` (retry), after
block handling and backoff sleep, which do not change the returned value; an
exception yields `{url, error}` on the last attempt and `None` (retry)
otherwise. -/
def process_scrape_attempt (url : String) (a : AttemptResult)
    (attempt max_retries : Nat) : Option Dict :=
  match a with
  | AttemptResult.ok r =>
      if truthyResult r && !hasKey (r.getD []) "error" then r else Option.none
  | AttemptResult.exc e =>
      if attempt ≥ max_retries then some [("url", Val.str url), ("error", Val.str e)]
      else Option.none

/-- The exhausted-retries record returned when the loop falls through. -/
def max_retries_result (url : String) : Dict :=
  [("url", Val.str url), ("error", Val.str "Max retries exceeded")]

/-- The `for attempt in range(max_retries + 1)` loop of `process_url`: run
the attempts in order, return the first non-`None` outcome, and fall through
to the exhausted-retries record. -/
def process_url_go (url : String) (oracle : Nat → AttemptResult)
    (max_retries : Nat) : List Nat → Dict
  | [] => max_retries_result url
  | i :: rest =>
      match process_scrape_attempt url (oracle i) i max_retries with
      | some r => r
      | Option.none => process_url_go url oracle max_retries rest

/-- `URLProcessor.process_url`: `None` when the compliance gate rejects the
URL, otherwise the outcome of the retry loop over attempts
`0..max_retries`.  `oracle i` is the outcome of `attempt_scrape` on attempt
`i` (network I/O, so an oracle in this embedding). -/
def process_url (url : String) (compliant : Bool)
    (oracle : Nat → AttemptResult) (max_retries : Nat) : Option Dict :=
  if compliant = false then Option.none
  else some (process_url_go url oracle max_retries (List.range (max_retries + 1)))

/-- The orchestrator's aggregate counters. -/
structure Stats where
  total : Nat
  success : Nat
  failed : Nat
  blocked : Nat
  skipped : Nat
deriving DecidableEq

/-- Python `len` of the `listings` value; at the call site in
`_update_stats_from_result` the value is always a list. -/
def lenVal : Val → Nat
  | Val.list l => l.length
  | Val.str s => s.data.length
  | _ => 0

/-- `PipelineOrchestrator._update_stats_from_result`: `None` counts as
skipped; an error result counts as blocked when the error text contains 403
or 429 and as failed otherwise; a successful search-results outcome adds the
listing count to success; any other successful result adds 1 to success. -/
def update_stats_from_result (stats : Stats) (result : Option Dict) : Stats :=
  match result with
  | Option.none => { stats with skipped := stats.skipped + 1 }
  | some r =>
      if hasKey r "error" then
        if pyIn "403" (pyStr (pyGetD r "error" (Val.str "")))
            || pyIn "429" (pyStr (pyGetD r "error" (Val.str ""))) then
          { stats with blocked := stats.blocked + 1 }
        else
          { stats with failed := stats.failed + 1 }
      else if pyGet r "type" = Val.str "search_results" && hasKey r "listings" then
        { stats with success := stats.success + lenVal (pyGet r "listings") }
      else
        { stats with success := stats.success + 1 }

/-- `URLProcessor.calculate_retry_delay`:
`Config.RETRY_DELAY * Config.RETRY_BACKOFF ** attempt`.
Modelled from the spec: the constants `Config.RETRY_DELAY` and
`Config.RETRY_BACKOFF` live in `src/config.py`, which is not among the
sources, so they are parameters here; the spec describes them as the base
delay of the backoff sleep (a positive duration) and the backoff multiplier.
Python float arithmetic is modelled by exact rationals. -/
def calculate_retry_delay (retry_delay retry_backoff : ℚ) (attempt : Nat) : ℚ :=
  retry_delay * retry_backoff ^ attempt

/-! ### Lemmas about dict reads and writes -/

theorem dictGet_dictSet_self (d : Dict) (k : String) (v : Val) :
    dictGet (dictSet d k v) k = some v := by
  induction d with
  | nil => simp [dictSet, dictGet]
  | cons kv rest ih =>
      obtain ⟨k0, w⟩ := kv
      by_cases h : k0 = k
      · simp [dictSet, dictGet, h]
      · simp [dictSet, dictGet, h, ih]

theorem dictGet_dictSet_ne (d : Dict) {kw k : String} (h : kw ≠ k) (v : Val) :
    dictGet (dictSet d kw v) k = dictGet d k := by
  induction d with
  | nil => simp [dictSet, dictGet, h]
  | cons kv rest ih =>
      obtain ⟨k0, w⟩ := kv
      by_cases h0 : k0 = kw
      · subst h0
        simp [dictSet, dictGet, h]
      · simp [dictSet, dictGet, h0, ih]

theorem dictGet_some_mem {d : Dict} {k : String} {v : Val}
    (h : dictGet d k = some v) : k ∈ d.map Prod.fst := by
  induction d with
  | nil => simp [dictGet] at h
  | cons kv rest ih =>
      obtain ⟨k0, w⟩ := kv
      by_cases h0 : k0 = k
      · simp [h0]
      · simp [dictGet, h0] at h
        simp [ih h]

theorem pyGet_ne_none_some {d : Dict} {k : String} (h : pyGet d k ≠ Val.none) :
    dictGet d k = some (pyGet d k) := by
  unfold pyGet at *
  cases hd : dictGet d k with
  | none => simp [hd] at h
  | some w => simp [hd]

theorem mem_keys_iff_isSome {d : Dict} {k : String} :
    k ∈ d.map Prod.fst ↔ (dictGet d k).isSome = true := by
  induction d with
  | nil => simp [dictGet]
  | cons kv rest ih =>
      obtain ⟨k0, w⟩ := kv
      simp only [List.map_cons, List.mem_cons, dictGet]
      by_cases h0 : k0 = k
      · simp [h0]
      · simp only [if_neg h0, ih]
        constructor
        · rintro (h | h)
          · exact absurd h.symm h0
          · exact h
        · intro h
          exact Or.inr h

theorem isSome_dictGet_dictSet_of {d : Dict} {k : String}
    (h : (dictGet d k).isSome = true) (kw : String) (v : Val) :
    (dictGet (dictSet d kw v) k).isSome = true := by
  by_cases hk : kw = k
  · subst hk
    simp [dictGet_dictSet_self]
  · rw [dictGet_dictSet_ne d hk]
    exact h

/-! ### Lemmas about one merge step -/

theorem merge_step_get_self (d : Dict) (k : String) (v : Val) :
    dictGet (merge_step d (k, v)) k = mergeCell k (dictGet d k) v := by
  unfold merge_step mergeCell pyGet
  by_cases hval : is_valid_fieldname k = false
  · simp [hval]
  · by_cases hemp : is_empty_value v = false
    · simp [hval, hemp, dictGet_dictSet_self]
    · by_cases hkeep : (dictGet d k).getD Val.none ≠ Val.none
          ∧ is_empty_value ((dictGet d k).getD Val.none) = false
      · simp [hval, hemp, hkeep]
      · by_cases hnone : (dictGet d k).getD Val.none = Val.none
        · simp [hval, hemp, hkeep, hnone, dictGet_dictSet_self]
        · simp [hval, hemp, hkeep, hnone]

theorem merge_step_get_ne (d : Dict) {kv : String × Val} {k : String}
    (h : kv.fst ≠ k) :
    dictGet (merge_step d kv) k = dictGet d k := by
  unfold merge_step
  split
  · rfl
  · split
    · exact dictGet_dictSet_ne d h kv.snd
    · split
      · rfl
      · split
        · exact dictGet_dictSet_ne d h Val.none
        · rfl

theorem mergeCell_isSome {k : String} {ev : Option Val}
    (h : ev.isSome = true) (v : Val) :
    (mergeCell k ev v).isSome = true := by
  unfold mergeCell
  split
  · exact h
  · split
    · simp
    · split
      · exact h
      · split
        · simp
        · exact h

theorem mergeCell_isSome_none {k : String} (hval : is_valid_fieldname k = true)
    (v : Val) :
    (mergeCell k Option.none v).isSome = true := by
  unfold mergeCell
  simp [hval]
  split <;> simp

theorem merge_step_isSome_mono {d : Dict} {k : String}
    (h : (dictGet d k).isSome = true) (kv : String × Val) :
    (dictGet (merge_step d kv) k).isSome = true := by
  obtain ⟨kw, v⟩ := kv
  by_cases hk : kw = k
  · subst hk
    rw [merge_step_get_self]
    exact mergeCell_isSome h v
  · rw [merge_step_get_ne d (show (kw, v).fst ≠ k from hk)]
    exact h

theorem merge_step_isSome_self {k : String} (hval : is_valid_fieldname k = true)
    (d : Dict) (v : Val) :
    (dictGet (merge_step d (k, v)) k).isSome = true := by
  rw [merge_step_get_self]
  cases hd : dictGet d k with
  | none => exact mergeCell_isSome_none hval v
  | some w => exact mergeCell_isSome (by simp) v

theorem mergeCell_preserves_nonempty {k : String} {ev : Option Val} {v : Val}
    (h : is_empty_value (ev.getD Val.none) = false) :
    is_empty_value ((mergeCell k ev v).getD Val.none) = false := by
  unfold mergeCell
  split
  · exact h
  · split
    · next hemp => simpa using hemp
    · split
      · exact h
      · split
        · next hnone =>
            rw [hnone] at h
            simp [is_empty_value] at h
        · exact h

theorem merge_step_preserves_nonempty {d : Dict} {k : String}
    (h : is_empty_value (pyGet d k) = false) (kv : String × Val) :
    is_empty_value (pyGet (merge_step d kv) k) = false := by
  obtain ⟨kw, v⟩ := kv
  by_cases hk : kw = k
  · subst hk
    unfold pyGet at h ⊢
    rw [merge_step_get_self]
    exact mergeCell_preserves_nonempty h
  · unfold pyGet at h ⊢
    rw [merge_step_get_ne d (show (kw, v).fst ≠ k from hk)]
    exact h

/-! ### Lemmas about the whole merge -/

theorem merge_foldl_get_not_mem {n : Dict} {k : String}
    (h : ∀ kv ∈ n, kv.fst ≠ k) (e : Dict) :
    dictGet (List.foldl merge_step e n) k = dictGet e k := by
  induction n generalizing e with
  | nil => rfl
  | cons kv rest ih =>
      rw [List.foldl_cons, ih (fun p hp => h p (List.mem_cons_of_mem kv hp))]
      exact merge_step_get_ne e (h kv (List.mem_cons_self kv rest))

theorem dictGet_none_forall {n : Dict} {k : String}
    (h : dictGet n k = Option.none) : ∀ kv ∈ n, kv.fst ≠ k := by
  induction n with
  | nil => simp
  | cons kv rest ih =>
      obtain ⟨k0, w⟩ := kv
      by_cases h0 : k0 = k
      · simp [dictGet, h0] at h
      · simp only [dictGet, if_neg h0] at h
        intro p hp
        rcases List.mem_cons.mp hp with hp | hp
        · rw [hp]
          exact h0
        · exact ih h p hp

theorem merge_get_none {n : Dict} {k : String}
    (h : dictGet n k = Option.none) (e : Dict) :
    dictGet (merge_listing_data e n) k = dictGet e k :=
  merge_foldl_get_not_mem (dictGet_none_forall h) e

theorem nodup_tail_not_mem {k0 : String} {w : Val} {rest : List (String × Val)}
    (hn : (((k0, w) :: rest).map Prod.fst).Nodup) :
    ∀ kv ∈ rest, kv.fst ≠ k0 := by
  intro p hp
  simp only [List.map_cons, List.nodup_cons] at hn
  intro hc
  exact hn.1 (hc ▸ List.mem_map_of_mem Prod.fst hp)

theorem merge_get_of_lookup {n : Dict} {k : String} {v : Val}
    (hn : (n.map Prod.fst).Nodup) (h : dictGet n k = some v) (e : Dict) :
    dictGet (merge_listing_data e n) k = mergeCell k (dictGet e k) v := by
  induction n generalizing e with
  | nil => simp [dictGet] at h
  | cons kv rest ih =>
      obtain ⟨k0, w⟩ := kv
      by_cases h0 : k0 = k
      · subst h0
        have hwv : w = v := by simpa [dictGet] using h
        subst hwv
        show dictGet (List.foldl merge_step (merge_step e (k0, w)) rest) k0
            = mergeCell k0 (dictGet e k0) w
        rw [merge_foldl_get_not_mem (nodup_tail_not_mem hn)]
        exact merge_step_get_self e k0 w
      · simp only [dictGet, if_neg h0] at h
        have hn2 : ((rest.map Prod.fst)).Nodup := by
          simp only [List.map_cons, List.nodup_cons] at hn
          exact hn.2
        show dictGet (List.foldl merge_step (merge_step e (k0, w)) rest) k
            = mergeCell k (dictGet e k) v
        have hrec := ih hn2 h (merge_step e (k0, w))
        unfold merge_listing_data at hrec
        rw [hrec, merge_step_get_ne e (show (k0, w).fst ≠ k from h0)]

theorem merge_isSome_mono {e : Dict} {k : String}
    (h : (dictGet e k).isSome = true) (n : Dict) :
    (dictGet (merge_listing_data e n) k).isSome = true := by
  induction n generalizing e with
  | nil => exact h
  | cons kv rest ih => exact ih (merge_step_isSome_mono h kv)

theorem merge_isSome_of_valid {n : Dict} {k : String}
    (hval : is_valid_fieldname k = true)
    (h : (dictGet n k).isSome = true) (e : Dict) :
    (dictGet (merge_listing_data e n) k).isSome = true := by
  induction n generalizing e with
  | nil => simp [dictGet] at h
  | cons kv rest ih =>
      obtain ⟨k0, w⟩ := kv
      by_cases h0 : k0 = k
      · subst h0
        exact merge_isSome_mono (merge_step_isSome_self hval e w) rest
      · simp only [dictGet, if_neg h0] at h
        exact ih h (merge_step e (k0, w))

theorem merge_preserves_nonempty {e : Dict} {k : String}
    (h : is_empty_value (pyGet e k) = false) (n : Dict) :
    is_empty_value (pyGet (merge_listing_data e n) k) = false := by
  induction n generalizing e with
  | nil => exact h
  | cons kv rest ih => exact ih (merge_step_preserves_nonempty h kv)

/-! ### Lemmas about the store -/

theorem storeGet_storeSet_self (s : Store) (u : Val) (d : Dict) :
    storeGet (storeSet s u d) u = some d := by
  induction s with
  | nil => simp [storeSet, storeGet]
  | cons p rest ih =>
      obtain ⟨u0, r⟩ := p
      by_cases h0 : u0 = u
      · simp [storeSet, storeGet, h0]
      · simp [storeSet, storeGet, h0, ih]

theorem storeGet_storeSet_ne (s : Store) {uw u : Val} (h : uw ≠ u) (d : Dict) :
    storeGet (storeSet s uw d) u = storeGet s u := by
  induction s with
  | nil => simp [storeSet, storeGet, h]
  | cons p rest ih =>
      obtain ⟨u0, r⟩ := p
      by_cases h0 : u0 = uw
      · subst h0
        simp [storeSet, storeGet, h]
      · simp [storeSet, storeGet, h0, ih]

theorem exists_snd_mem_storeSet (s : Store) (u : Val) (d : Dict) :
    ∃ p ∈ storeSet s u d, p.snd = d := by
  induction s with
  | nil => exact ⟨(u, d), by simp [storeSet]⟩
  | cons q rest ih =>
      obtain ⟨u0, r⟩ := q
      by_cases h0 : u0 = u
      · exact ⟨(u0, d), by simp [storeSet, h0]⟩
      · obtain ⟨p, hp, hd⟩ := ih
        exact ⟨p, by simp [storeSet, h0, hp], hd⟩

/-! ### Lemmas about field-name collection -/

theorem mem_validKeys_iff {d : Dict} {x : String} :
    x ∈ validKeys d ↔ x ∈ d.map Prod.fst ∧ is_valid_fieldname x = true := by
  unfold validKeys
  simp [List.mem_filter]

theorem mem_validKeys_of_isSome {d : Dict} {x : String}
    (hval : is_valid_fieldname x = true) (h : (dictGet d x).isSome = true) :
    x ∈ validKeys d :=
  mem_validKeys_iff.mpr ⟨mem_keys_iff_isSome.mpr h, hval⟩

theorem valid_of_mem_validKeys {d : Dict} {x : String}
    (h : x ∈ validKeys d) : is_valid_fieldname x = true :=
  (mem_validKeys_iff.mp h).2

theorem mem_validKeysStore_iff {s : Store} {x : String} :
    x ∈ validKeysStore s ↔ ∃ p ∈ s, x ∈ validKeys p.snd := by
  induction s with
  | nil => simp [validKeysStore]
  | cons p rest ih =>
      simp [validKeysStore, ih]

theorem mem_insertSorted {x s : String} {l : List String} :
    x ∈ insertSorted s l ↔ x = s ∨ x ∈ l := by
  induction l with
  | nil => simp [insertSorted]
  | cons t rest ih =>
      by_cases h : strLe s t
      · simp [insertSorted, h]
      · simp [insertSorted, h, ih]
        tauto

theorem mem_sortStrings {x : String} {l : List String} :
    x ∈ sortStrings l ↔ x ∈ l := by
  induction l with
  | nil => simp [sortStrings]
  | cons s rest ih =>
      simp [sortStrings, mem_insertSorted, ih]

theorem mem_dedupStr {x : String} {l : List String} :
    x ∈ dedupStr l ↔ x ∈ l := by
  induction l with
  | nil => simp [dedupStr]
  | cons s rest ih =>
      by_cases h : s ∈ rest
      · simp [dedupStr, h, ih]
        intro hx
        rw [hx]
        exact h
      · simp [dedupStr, h, ih]

theorem mem_sortedFieldSet {x : String} {l : List String} :
    x ∈ sortedFieldSet l ↔ x ∈ l := by
  unfold sortedFieldSet
  rw [mem_sortStrings, mem_dedupStr]

theorem sortedFieldSet_not_isEmpty_of_mem {x : String} {l : List String}
    (h : x ∈ l) : (sortedFieldSet l).isEmpty = false := by
  have hx : x ∈ sortedFieldSet l := mem_sortedFieldSet.mpr h
  cases hf : sortedFieldSet l with
  | nil => rw [hf] at hx; simp at hx
  | cons a rest => simp

/-! ### Lemmas about `save_single_listing` -/

theorem truthy_ne_none {v : Val} (h : truthy v = true) : v ≠ Val.none := by
  intro hc
  rw [hc] at h
  simp [truthy] at h

theorem truthy_url_isSome {l : Dict} (h : truthy (pyGet l "url") = true) :
    (dictGet l "url").isSome = true := by
  cases hd : dictGet l "url" with
  | none =>
      unfold pyGet at h
      rw [hd] at h
      simp [truthy] at h
  | some w => simp

theorem url_valid : is_valid_fieldname "url" = true := by decide

theorem truthy_url_mem_validKeys {l : Dict} (h : truthy (pyGet l "url") = true) :
    "url" ∈ validKeys l :=
  mem_validKeys_of_isSome url_valid (truthy_url_isSome h)

theorem save_single_write_of_truthy {l : Dict} {s : Store}
    (hl : l ≠ []) (hurl : truthy (pyGet l "url") = true)
    (htech : is_technical_error l = false) :
    save_single_listing_write s l
      = some (all_fieldnames_single (save_merged_data s l) l,
          save_merged_data s l) := by
  unfold save_single_listing_write
  have hisEmpty : l.isEmpty = false := by
    cases l
    · simp at hl
    · simp
  have hmem : "url" ∈ validKeysStore (save_merged_data s l) ++ validKeys l :=
    List.mem_append_right _ (truthy_url_mem_validKeys hurl)
  have hne : (all_fieldnames_single (save_merged_data s l) l).isEmpty = false := by
    unfold all_fieldnames_single
    exact sortedFieldSet_not_isEmpty_of_mem hmem
  simp [hisEmpty, hurl, htech, hne]

theorem save_single_eq_batch_step {l : Dict}
    (htech : is_technical_error l = false) (s : Store) :
    save_single_listing_store s l = batch_merge_step s l := by
  by_cases hurl : truthy (pyGet l "url") = true
  · have hl : l ≠ [] := by
      intro hc
      subst hc
      simp [pyGet, dictGet, truthy] at hurl
    unfold save_single_listing_store
    rw [save_single_write_of_truthy hl hurl htech]
    unfold batch_merge_step save_merged_data
    simp [hurl]
  · have hurl2 : truthy (pyGet l "url") = false := by simpa using hurl
    unfold save_single_listing_store save_single_listing_write batch_merge_step
    simp [hurl2]

theorem foldl_batch_step_skip {ls : List Dict}
    (h : ∀ l ∈ ls, truthy (pyGet l "url") = false) (s : Store) :
    ls.foldl batch_merge_step s = s := by
  induction ls generalizing s with
  | nil => rfl
  | cons l rest ih =>
      have hstep : batch_merge_step s l = s := by
        unfold batch_merge_step
        simp [h l (List.mem_cons_self l rest)]
      rw [List.foldl_cons, hstep, ih (fun p hp => h p (List.mem_cons_of_mem l hp))]

theorem batch_step_url_row {s : Store} {l : Dict}
    (h : truthy (pyGet l "url") = true) :
    ∃ p ∈ batch_merge_step s l, "url" ∈ validKeys p.snd := by
  unfold batch_merge_step
  simp only [h, Bool.true_eq_false, if_false]
  cases hg : storeGet s (pyGet l "url") with
  | some row =>
      obtain ⟨p, hp, hd⟩ := exists_snd_mem_storeSet s (pyGet l "url")
        (merge_listing_data row l)
      refine ⟨p, hp, ?_⟩
      rw [hd]
      exact mem_validKeys_of_isSome url_valid
        (merge_isSome_of_valid url_valid (truthy_url_isSome h) row)
  | none =>
      obtain ⟨p, hp, hd⟩ := exists_snd_mem_storeSet s (pyGet l "url") l
      refine ⟨p, hp, ?_⟩
      rw [hd]
      exact truthy_url_mem_validKeys h

theorem batch_fold_dichotomy (ls : List Dict) (s : Store) :
    (∀ l ∈ ls, truthy (pyGet l "url") = false)
      ∨ ∃ p ∈ ls.foldl batch_merge_step s, "url" ∈ validKeys p.snd := by
  induction ls generalizing s with
  | nil => exact Or.inl (by simp)
  | cons l rest ih =>
      by_cases hl : truthy (pyGet l "url") = true
      · right
        rcases ih (batch_merge_step s l) with hskip | hJ
        · rw [List.foldl_cons, foldl_batch_step_skip hskip]
          exact batch_step_url_row hl
        · rw [List.foldl_cons]
          exact hJ
      · have hl2 : truthy (pyGet l "url") = false := by simpa using hl
        rcases ih (batch_merge_step s l) with hskip | hJ
        · left
          intro p hp
          rcases List.mem_cons.mp hp with hp | hp
          · rw [hp]; exact hl2
          · exact hskip p hp
        · right
          rw [List.foldl_cons]
          exact hJ

theorem foldl_single_eq_foldl_batch {ls : List Dict}
    (h : ∀ l ∈ ls, is_technical_error l = false) (s : Store) :
    ls.foldl save_single_listing_store s = ls.foldl batch_merge_step s := by
  induction ls generalizing s with
  | nil => rfl
  | cons l rest ih =>
      rw [List.foldl_cons, List.foldl_cons,
        save_single_eq_batch_step (h l (List.mem_cons_self l rest)),
        ih (fun p hp => h p (List.mem_cons_of_mem l hp))]

theorem batch_eq_foldl_batch_step (s : Store) (ls : List Dict) :
    save_listings_batch_store s ls = ls.foldl batch_merge_step s := by
  unfold save_listings_batch_store
  cases ls with
  | nil => simp
  | cons l rest =>
      have hd := batch_fold_dichotomy (l :: rest) s
      rw [List.foldl_cons] at hd
      simp only [List.isEmpty_cons, Bool.false_eq_true, if_false, List.foldl_cons]
      rcases hd with hskip | hJ
      · have hs := foldl_batch_step_skip hskip s
        rw [List.foldl_cons] at hs
        rw [hs]
        simp
      · obtain ⟨p, hp, hurl⟩ := hJ
        have hm : "url"
            ∈ validKeysStore (List.foldl batch_merge_step (batch_merge_step s l) rest) :=
          mem_validKeysStore_iff.mpr ⟨p, hp, hurl⟩
        have hne := sortedFieldSet_not_isEmpty_of_mem
          (List.mem_append_right (validKeysStore s) hm)
        have hne2 : sortedFieldSet (validKeysStore s
            ++ validKeysStore (List.foldl batch_merge_step (batch_merge_step s l) rest))
              ≠ [] := by
          intro hc
          rw [hc] at hne
          simp at hne
        simp [hne2]

/-! ### Non-regression through the save operations -/

theorem pyGet_nil_empty (k : String) : is_empty_value (pyGet [] k) = true := by
  simp [pyGet, dictGet, is_empty_value]

theorem save_merged_data_preserves_nonempty {store : Store} {u : Val} {k : String}
    (h : is_empty_value (pyGet (rowAt store u) k) = false) (l : Dict) :
    is_empty_value (pyGet (rowAt (save_merged_data store l) u) k) = false := by
  unfold save_merged_data
  cases hg : storeGet store (pyGet l "url") with
  | some row =>
      by_cases hu : pyGet l "url" = u
      · subst hu
        unfold rowAt at h ⊢
        rw [hg] at h
        simp only [Option.getD_some] at h
        rw [storeGet_storeSet_self]
        simp only [Option.getD_some]
        exact merge_preserves_nonempty h l
      · unfold rowAt at h ⊢
        rw [storeGet_storeSet_ne store hu]
        exact h
  | none =>
      by_cases hu : pyGet l "url" = u
      · subst hu
        unfold rowAt at h
        rw [hg] at h
        simp [pyGet, dictGet, is_empty_value] at h
      · unfold rowAt at h ⊢
        rw [storeGet_storeSet_ne store hu]
        exact h

theorem batch_step_preserves_nonempty {store : Store} {u : Val} {k : String}
    (h : is_empty_value (pyGet (rowAt store u) k) = false) (l : Dict) :
    is_empty_value (pyGet (rowAt (batch_merge_step store l) u) k) = false := by
  unfold batch_merge_step
  by_cases hurl : truthy (pyGet l "url") = false
  · simp only [hurl, if_true]
    exact h
  · have hurl2 : truthy (pyGet l "url") = true := by simpa using hurl
    simp only [hurl2, Bool.true_eq_false, if_false]
    have := save_merged_data_preserves_nonempty h l
    unfold save_merged_data at this
    exact this

theorem save_single_cases (s : Store) (l : Dict) :
    save_single_listing_store s l = s
      ∨ save_single_listing_store s l = save_merged_data s l := by
  unfold save_single_listing_store save_single_listing_write
  by_cases h1 : l.isEmpty
  · simp [h1]
  · by_cases h2 : truthy (pyGet l "url") = false
    · simp [h1, h2]
    · by_cases h3 : is_technical_error l
      · simp [h1, h2, h3]
      · by_cases h4 : (all_fieldnames_single (save_merged_data s l) l).isEmpty
        · simp [h1, h2, h3, h4]
        · simp [h1, h2, h3, h4]

theorem save_single_preserves_nonempty {store : Store} {u : Val} {k : String}
    (h : is_empty_value (pyGet (rowAt store u) k) = false) (l : Dict) :
    is_empty_value (pyGet (rowAt (save_single_listing_store store l) u) k)
      = false := by
  rcases save_single_cases store l with hc | hc
  · rw [hc]
    exact h
  · rw [hc]
    exact save_merged_data_preserves_nonempty h l

/-! ### Rejection lemmas for `save_single_listing` -/

theorem save_single_of_rejected {listing : Dict}
    (h : save_rejected listing = true) (store : Store) :
    save_single_listing_store store listing = store := by
  unfold save_rejected at h
  unfold save_single_listing_store save_single_listing_write
  by_cases h1 : listing.isEmpty
  · simp [h1]
  · by_cases h2 : truthy (pyGet listing "url") = false
    · simp [h1, h2]
    · have h2t : truthy (pyGet listing "url") = true := by
        cases hb : truthy (pyGet listing "url")
        · exact absurd hb h2
        · rfl
      have h1f : listing.isEmpty = false := by
        cases hb : listing.isEmpty
        · rfl
        · exact absurd hb h1
      have h3 : is_technical_error listing = true := by
        rw [h1f, h2t] at h
        simpa using h
      simp [h1, h2, h3]

/-! ### Lemmas about the merge when both sides are empty -/

theorem mergeCell_both_empty {k : String} {ev : Option Val} {v : Val}
    (hval : is_valid_fieldname k = true) (hv : is_empty_value v = true)
    (hev : is_empty_value (ev.getD Val.none) = true) :
    ∃ w, mergeCell k ev v = some w ∧ is_empty_value w = true := by
  unfold mergeCell
  simp only [hval, Bool.true_eq_false, if_false, hv, if_false]
  cases ev with
  | none =>
      refine ⟨Val.none, ?_, by simp [is_empty_value]⟩
      simp
  | some w =>
      simp only [Option.getD_some] at hev ⊢
      by_cases hw : w = Val.none
      · subst hw
        refine ⟨Val.none, ?_, by simp [is_empty_value]⟩
        simp
      · refine ⟨w, ?_, hev⟩
        simp [hw, hev]

/-! ### Lemmas about the retry loop -/

theorem process_url_go_agree {url : String} {o o2 : Nat → AttemptResult}
    {m : Nat} {l : List Nat} (h : ∀ i ∈ l, o i = o2 i) :
    process_url_go url o m l = process_url_go url o2 m l := by
  induction l with
  | nil => rfl
  | cons i rest ih =>
      have hrest := ih (fun j hj => h j (List.mem_cons_of_mem i hj))
      unfold process_url_go
      rw [h i (List.mem_cons_self i rest), hrest]

theorem process_url_go_append (l2 : List Nat) {url : String}
    {o : Nat → AttemptResult} {m : Nat} {l1 : List Nat}
    (h : ∀ i ∈ l1, process_scrape_attempt url (o i) i m = Option.none) :
    process_url_go url o m (l1 ++ l2) = process_url_go url o m l2 := by
  induction l1 with
  | nil => rfl
  | cons i rest ih =>
      have hstep : process_url_go url o m (i :: (rest ++ l2))
          = process_url_go url o m (rest ++ l2) := by
        show (match process_scrape_attempt url (o i) i m with
          | some r => r
          | Option.none => process_url_go url o m (rest ++ l2)) = _
        rw [h i (List.mem_cons_self i rest)]
      rw [List.cons_append, hstep]
      exact ih (fun j hj => h j (List.mem_cons_of_mem i hj))

theorem process_url_go_all_none {url : String} {o : Nat → AttemptResult}
    {m : Nat} {l : List Nat}
    (h : ∀ i ∈ l, process_scrape_attempt url (o i) i m = Option.none) :
    process_url_go url o m l = max_retries_result url := by
  have hap := process_url_go_append [] h
  rw [List.append_nil] at hap
  rw [hap]
  rfl

/-! ## Claim theorems -/

/-- C1: for every sequence of records merged into the store for the same
identity via `_merge_listing_data` — iterated directly, or as performed by
`save_single_listing` and `save_listings_batch` — once a field of that
identity's row holds a non-empty value (per `_is_empty_value`), no subsequent
merge replaces that field with an empty value. -/
theorem claim_C1_non_regression (k : String) :
    (∀ (row : Dict) (recs : List Dict),
        is_empty_value (pyGet row k) = false →
        is_empty_value (pyGet (recs.foldl merge_listing_data row) k) = false)
  ∧ (∀ (store : Store) (listing : Dict) (u : Val),
        is_empty_value (pyGet (rowAt store u) k) = false →
        is_empty_value
          (pyGet (rowAt (save_single_listing_store store listing) u) k) = false)
  ∧ (∀ (store : Store) (listings : List Dict) (u : Val),
        is_empty_value (pyGet (rowAt store u) k) = false →
        is_empty_value
          (pyGet (rowAt (save_listings_batch_store store listings) u) k)
            = false) := by
  refine ⟨?_, ?_, ?_⟩
  · intro row recs h
    induction recs generalizing row with
    | nil => exact h
    | cons rec1 rest ih =>
        rw [List.foldl_cons]
        exact ih (merge_listing_data row rec1) (merge_preserves_nonempty h rec1)
  · intro store listing u h
    exact save_single_preserves_nonempty h listing
  · intro store listings u h
    rw [batch_eq_foldl_batch_step]
    induction listings generalizing store with
    | nil => exact h
    | cons l rest ih =>
        rw [List.foldl_cons]
        exact ih (batch_merge_step store l) (batch_step_preserves_nonempty h l)

/-- C1 witness: a row whose `price` is non-empty keeps a non-empty `price`
after merging a record with an empty `price`. -/
theorem claim_C1_witness :
    is_empty_value (pyGet [("price", Val.int 100)] "price") = false
      ∧ is_empty_value (pyGet ([[("price", Val.str " ")]].foldl
          merge_listing_data [("price", Val.int 100)]) "price") = false :=
  ⟨by decide, (claim_C1_non_regression "price").1 [("price", Val.int 100)]
      [[("price", Val.str " ")]] (by decide)⟩

/-- C2: `_merge_listing_data` maps each valid field of the new record to the
new value when it is non-empty, keeps a non-empty existing value when the new
value is empty, records the field as present-but-empty when both sides are
empty, and carries fields absent from the new record through unchanged; and
on a fresh store, saving `{url: A, price: 100}` then
`{url: A, price: "", title: T}` through `save_single_listing` yields a row
with `price = 100` and `title = T`. -/
theorem claim_C2_merge_semantics (e n : Dict) (k : String) (v : Val)
    (hval : is_valid_fieldname k = true) (hnodup : (n.map Prod.fst).Nodup) :
    (dictGet n k = some v → is_empty_value v = false →
        dictGet (merge_listing_data e n) k = some v)
  ∧ (dictGet n k = some v → is_empty_value v = true →
        is_empty_value (pyGet e k) = false →
        dictGet (merge_listing_data e n) k = dictGet e k)
  ∧ (dictGet n k = some v → is_empty_value v = true →
        is_empty_value (pyGet e k) = true →
        ∃ w, dictGet (merge_listing_data e n) k = some w
          ∧ is_empty_value w = true)
  ∧ (dictGet n k = Option.none →
        dictGet (merge_listing_data e n) k = dictGet e k)
  ∧ ((storeGet (save_single_listing_store (save_single_listing_store []
        [("url", Val.str "A"), ("price", Val.int 100)])
        [("url", Val.str "A"), ("price", Val.str ""), ("title", Val.str "T")])
        (Val.str "A")).map (fun d => (pyGet d "price", pyGet d "title"))
      = some (Val.int 100, Val.str "T")) := by
  refine ⟨?_, ?_, ?_, ?_, by decide⟩
  · intro h1 h2
    rw [merge_get_of_lookup hnodup h1 e]
    unfold mergeCell
    simp [hval, h2]
  · intro h1 h2 h3
    rw [merge_get_of_lookup hnodup h1 e]
    unfold mergeCell
    have hne : (dictGet e k).getD Val.none ≠ Val.none := by
      intro hc
      unfold pyGet at h3
      rw [hc] at h3
      simp [is_empty_value] at h3
    unfold pyGet at h3
    simp [hval, h2, hne, h3]
  · intro h1 h2 h3
    rw [merge_get_of_lookup hnodup h1 e]
    unfold pyGet at h3
    exact mergeCell_both_empty hval h2 h3
  · intro h1
    exact merge_get_none h1 e

/-- C2 witness: the per-field merge clauses applied at a concrete existing
row and record. -/
theorem claim_C2_witness :
    (is_valid_fieldname "price" = true
        ∧ ((([("price", Val.str ""), ("title", Val.str "T")] : Dict)).map
            Prod.fst).Nodup
        ∧ dictGet [("price", Val.str ""), ("title", Val.str "T")] "price"
            = some (Val.str "")
        ∧ is_empty_value (Val.str "") = true
        ∧ is_empty_value (pyGet [("price", Val.int 100)] "price") = false)
      ∧ dictGet (merge_listing_data [("price", Val.int 100)]
          [("price", Val.str ""), ("title", Val.str "T")]) "price"
        = dictGet [("price", Val.int 100)] "price" :=
  ⟨⟨by decide, by decide, by decide, by decide, by decide⟩,
    (claim_C2_merge_semantics [("price", Val.int 100)]
      [("price", Val.str ""), ("title", Val.str "T")] "price" (Val.str "")
      (by decide) (by decide)).2.1 (by decide) (by decide) (by decide)⟩

/-- C3: `save_single_listing` performs no write — the store is unchanged —
when the incoming record is empty, lacks a `url` key, or is a
technical-failure marker per `_is_technical_error`; consequently a
technical-error record never enters the store through a save attempt. -/
theorem claim_C3_save_rejections (store : Store) (listing : Dict) :
    (listing = [] → save_single_listing_store store listing = store)
  ∧ (dictGet listing "url" = Option.none →
        save_single_listing_store store listing = store)
  ∧ (is_technical_error listing = true →
        save_single_listing_store store listing = store)
  ∧ (∀ u : Val, is_technical_error listing = true →
        storeGet (save_single_listing_store store listing) u
          = storeGet store u) := by
  have hrej : ∀ hr : save_rejected listing = true,
      save_single_listing_store store listing = store :=
    fun hr => save_single_of_rejected hr store
  refine ⟨?_, ?_, ?_, ?_⟩
  · intro h
    subst h
    apply hrej
    decide
  · intro h
    apply hrej
    unfold save_rejected
    have : truthy (pyGet listing "url") = false := by
      unfold pyGet
      rw [h]
      simp [truthy]
    simp [this]
  · intro h
    apply hrej
    unfold save_rejected
    simp [h]
  · intro u h
    rw [save_single_of_rejected (by unfold save_rejected; simp [h]) store]

/-- C3 witness: a technical-failure marker record leaves a concrete store
unchanged. -/
theorem claim_C3_witness :
    is_technical_error [("url", Val.str "U"),
        ("error", Val.str "xserver failure")] = true
      ∧ save_single_listing_store [(Val.str "A", [("url", Val.str "A")])]
          [("url", Val.str "U"), ("error", Val.str "xserver failure")]
        = [(Val.str "A", [("url", Val.str "A")])] :=
  ⟨by decide, (claim_C3_save_rejections
      [(Val.str "A", [("url", Val.str "A")])]
      [("url", Val.str "U"), ("error", Val.str "xserver failure")]).2.2.1
      (by decide)⟩

/-- C4 counterexample: `save_listings_batch` does not reject
technical-failure marker records (and acquires no lock at all), so on the
batch `[{url: U, error: "xserver failure"}]` against an empty store it
inserts the marker record while the sequential `save_single_listing` run
rejects it — the two disagree, refuting the claimed equivalence. -/
theorem claim_C4_counterexample :
    save_listings_batch_store []
        [[("url", Val.str "U"), ("error", Val.str "xserver failure")]]
      ≠ [[("url", Val.str "U"), ("error", Val.str "xserver failure")]].foldl
          save_single_listing_store [] := by
  decide

/-- C4 (amended): for every batch none of whose records is a
technical-failure marker, `save_listings_batch` has the same effect on the
store as applying `save_single_listing` to each record in order — it rejects
records lacking a truthy `url` identically — differing only in amortization
(one load, one rewrite) and in that the batch path performs no
technical-failure rejection and no advisory-lock handling. -/
theorem claim_C4_batch_amended (store : Store) (listings : List Dict)
    (h : ∀ l ∈ listings, is_technical_error l = false) :
    save_listings_batch_store store listings
      = listings.foldl save_single_listing_store store := by
  rw [batch_eq_foldl_batch_step, foldl_single_eq_foldl_batch h]

/-- C4 witness: batch and sequential saves agree on a concrete
two-record batch with no technical-failure markers. -/
theorem claim_C4_witness :
    (∀ l ∈ [[("url", Val.str "A"), ("price", Val.int 100)],
        [("url", Val.str "B"), ("price", Val.str "")]],
      is_technical_error l = false)
      ∧ save_listings_batch_store []
          [[("url", Val.str "A"), ("price", Val.int 100)],
            [("url", Val.str "B"), ("price", Val.str "")]]
        = [[("url", Val.str "A"), ("price", Val.int 100)],
            [("url", Val.str "B"), ("price", Val.str "")]].foldl
              save_single_listing_store [] :=
  ⟨by decide, claim_C4_batch_amended []
      [[("url", Val.str "A"), ("price", Val.int 100)],
        [("url", Val.str "B"), ("price", Val.str "")]] (by decide)⟩

/-- C5: for every `save_single_listing` call that passes the rejection
checks, the sentinel lock marker is removed in the final step whether the
read-merge-rewrite body succeeds or raises (an error during the removal
itself is swallowed), and a body exception propagates to the caller after
the cleanup while a success stores the rewritten contents and returns
normally. -/
theorem claim_C5_lock_cleanup (st : SaveState) (listing : Dict)
    (body : Except String Store) (unlinkRaises : Bool)
    (h : save_rejected listing = false) :
    (unlinkRaises = false →
        (save_single_listing_flow st listing body unlinkRaises).fst.lockExists
          = false)
  ∧ (∀ e, body = Except.error e →
        (save_single_listing_flow st listing body unlinkRaises).snd
          = Except.error e)
  ∧ (∀ s2, body = Except.ok s2 →
        (save_single_listing_flow st listing body unlinkRaises).snd
            = Except.ok ()
          ∧ (save_single_listing_flow st listing body unlinkRaises).fst.store
            = s2) := by
  refine ⟨?_, ?_, ?_⟩
  · intro hu
    subst hu
    unfold save_single_listing_flow
    simp [h]
    cases body <;> simp
  · intro e he
    subst he
    unfold save_single_listing_flow
    simp [h]
  · intro s2 hs
    subst hs
    unfold save_single_listing_flow
    simp [h]
    cases unlinkRaises <;> simp

/-- C5 witness: with a failing body and a clean unlink, the lock is removed
and the body error is re-raised. -/
theorem claim_C5_witness :
    save_rejected [("url", Val.str "A"), ("price", Val.int 1)] = false
      ∧ (save_single_listing_flow ⟨[], false⟩
          [("url", Val.str "A"), ("price", Val.int 1)]
          (Except.error "disk full") false).fst.lockExists = false
      ∧ (save_single_listing_flow ⟨[], false⟩
          [("url", Val.str "A"), ("price", Val.int 1)]
          (Except.error "disk full") false).snd
        = Except.error "disk full" :=
  ⟨by decide,
    (claim_C5_lock_cleanup ⟨[], false⟩
      [("url", Val.str "A"), ("price", Val.int 1)]
      (Except.error "disk full") false (by decide)).1 rfl,
    (claim_C5_lock_cleanup ⟨[], false⟩
      [("url", Val.str "A"), ("price", Val.int 1)]
      (Except.error "disk full") false (by decide)).2.1 "disk full" rfl⟩

/-- `process_url` on a compliant URL runs the loop over attempts
`0..max_retries`. -/
theorem process_url_true (url : String) (o : Nat → AttemptResult) (m : Nat) :
    process_url url true o m
      = some (process_url_go url o m (List.range (m + 1))) := by
  simp [process_url]

/-- The loop returns the attempt outcome as soon as one attempt yields a
value. -/
theorem process_url_go_cons_some {url : String} {o : Nat → AttemptResult}
    {m i : Nat} {rest : List Nat} {d : Dict}
    (h : process_scrape_attempt url (o i) i m = some d) :
    process_url_go url o m (i :: rest) = d := by
  unfold process_url_go
  rw [h]

/-- C6: for a URL that passes the compliance gate, `process_url` consults at
most attempts `0..max_retries`; the first attempt returning a truthy result
without an `error` field is returned immediately; if every attempt returns a
result carrying an `error` field the outcome is `{url, error: "Max retries
exceeded"}`; if the final attempt raises, the outcome is `{url, error:
<exception text>}`; and the call never returns `None` for a compliant URL. -/
theorem claim_C6_process_url (url : String) (m : Nat) :
    (∀ o o2 : Nat → AttemptResult, (∀ i, i ≤ m → o i = o2 i) →
        process_url url true o m = process_url url true o2 m)
  ∧ (∀ (o : Nat → AttemptResult) (i : Nat) (d : Dict), i ≤ m →
        (∀ j, j < i → process_scrape_attempt url (o j) j m = Option.none) →
        o i = AttemptResult.ok (some d) → d.isEmpty = false →
        hasKey d "error" = false →
        process_url url true o m = some d)
  ∧ (∀ o : Nat → AttemptResult,
        (∀ i, i ≤ m → ∃ d, o i = AttemptResult.ok (some d)
            ∧ hasKey d "error" = true) →
        process_url url true o m = some (max_retries_result url))
  ∧ (∀ (o : Nat → AttemptResult) (e : String),
        (∀ j, j < m → process_scrape_attempt url (o j) j m = Option.none) →
        o m = AttemptResult.exc e →
        process_url url true o m
          = some [("url", Val.str url), ("error", Val.str e)])
  ∧ (∀ o : Nat → AttemptResult, (process_url url true o m).isSome = true) := by
  refine ⟨?_, ?_, ?_, ?_, ?_⟩
  · intro o o2 hagree
    rw [process_url_true, process_url_true]
    congr 1
    exact process_url_go_agree
      (fun i hi => hagree i (Nat.lt_succ_iff.mp (List.mem_range.mp hi)))
  · intro o i d hi hprev hoi hne hnerr
    rw [process_url_true]
    congr 1
    have hm1 : m + 1 = i + (m - i + 1) := by omega
    rw [hm1, List.range_add,
      process_url_go_append _ (fun j hj => hprev j (List.mem_range.mp hj)),
      List.range_succ_eq_map (m - i), List.map_cons]
    have hpsa : process_scrape_attempt url (o i) i m = some d := by
      rw [hoi]
      unfold process_scrape_attempt truthyResult
      simp [hne, hnerr]
    exact process_url_go_cons_some (by simpa using hpsa)
  · intro o hall
    rw [process_url_true]
    congr 1
    apply process_url_go_all_none
    intro i hi
    obtain ⟨d, hoi, herr⟩ := hall i (Nat.lt_succ_iff.mp (List.mem_range.mp hi))
    rw [hoi]
    unfold process_scrape_attempt
    simp [herr]
  · intro o e hprev hom
    rw [process_url_true]
    congr 1
    rw [List.range_succ m,
      process_url_go_append _ (fun j hj => hprev j (List.mem_range.mp hj))]
    apply process_url_go_cons_some
    rw [hom]
    unfold process_scrape_attempt
    simp
  · intro o
    rw [process_url_true]
    rfl

/-- C6 witness: two failing attempts followed by exhaustion yield the
max-retries record at a concrete oracle. -/
theorem claim_C6_witness :
    (∀ i, i ≤ 1 → ∃ d, (fun _ : Nat => AttemptResult.ok
          (some [("url", Val.str "u"), ("error", Val.str "timeout")])) i
        = AttemptResult.ok (some d) ∧ hasKey d "error" = true)
      ∧ process_url "u" true (fun _ => AttemptResult.ok
          (some [("url", Val.str "u"), ("error", Val.str "timeout")])) 1
        = some (max_retries_result "u") :=
  ⟨fun i _ => ⟨[("url", Val.str "u"), ("error", Val.str "timeout")],
      rfl, by decide⟩,
    (claim_C6_process_url "u" 1).2.2.1
      (fun _ => AttemptResult.ok
        (some [("url", Val.str "u"), ("error", Val.str "timeout")]))
      (fun i _ => ⟨[("url", Val.str "u"), ("error", Val.str "timeout")],
        rfl, by decide⟩)⟩

/-- C7: `_update_stats_from_result` counts a `None` outcome as skipped; an
error result whose text contains 403 or 429 as blocked (leaving failed
unchanged); any other error result as failed; a successful search-results
outcome as success weighted by its listing count; any other successful
result as one success — and every counter is monotonically non-decreasing
under an update. -/
theorem claim_C7_stats_update (s : Stats) :
    (update_stats_from_result s Option.none
        = { s with skipped := s.skipped + 1 })
  ∧ (∀ r : Dict, hasKey r "error" = true →
        (pyIn "403" (pyStr (pyGetD r "error" (Val.str ""))) = true
            ∨ pyIn "429" (pyStr (pyGetD r "error" (Val.str ""))) = true) →
        update_stats_from_result s (some r)
          = { s with blocked := s.blocked + 1 })
  ∧ (∀ r : Dict, hasKey r "error" = true →
        pyIn "403" (pyStr (pyGetD r "error" (Val.str ""))) = false →
        pyIn "429" (pyStr (pyGetD r "error" (Val.str ""))) = false →
        update_stats_from_result s (some r)
          = { s with failed := s.failed + 1 })
  ∧ (∀ (r : Dict) (L : List Val), hasKey r "error" = false →
        pyGet r "type" = Val.str "search_results" → hasKey r "listings" = true →
        pyGet r "listings" = Val.list L →
        update_stats_from_result s (some r)
          = { s with success := s.success + L.length })
  ∧ (∀ r : Dict, hasKey r "error" = false →
        ¬(pyGet r "type" = Val.str "search_results"
            ∧ hasKey r "listings" = true) →
        update_stats_from_result s (some r)
          = { s with success := s.success + 1 })
  ∧ (∀ r : Option Dict,
        s.total ≤ (update_stats_from_result s r).total
          ∧ s.success ≤ (update_stats_from_result s r).success
          ∧ s.failed ≤ (update_stats_from_result s r).failed
          ∧ s.blocked ≤ (update_stats_from_result s r).blocked
          ∧ s.skipped ≤ (update_stats_from_result s r).skipped) := by
  refine ⟨rfl, ?_, ?_, ?_, ?_, ?_⟩
  · intro r herr hblock
    unfold update_stats_from_result
    rcases hblock with hb | hb <;> simp [herr, hb]
  · intro r herr h403 h429
    unfold update_stats_from_result
    simp [herr, h403, h429]
  · intro r L herr htype hkey hlist
    unfold update_stats_from_result
    simp [herr, htype, hkey, hlist, lenVal]
  · intro r herr hnot
    unfold update_stats_from_result
    have hcond : (decide (pyGet r "type" = Val.str "search_results")
        && hasKey r "listings") = false := by
      cases hc1 : decide (pyGet r "type" = Val.str "search_results") with
      | false => simp
      | true =>
          cases hc2 : hasKey r "listings" with
          | false => simp
          | true => exact absurd ⟨of_decide_eq_true hc1, hc2⟩ hnot
    simp [herr, hcond]
  · intro r
    cases r with
    | none =>
        simp only [update_stats_from_result]
        exact ⟨le_refl _, le_refl _, le_refl _, le_refl _, Nat.le_succ _⟩
    | some d =>
        simp only [update_stats_from_result]
        split
        · split
          · exact ⟨le_refl _, le_refl _, le_refl _, Nat.le_succ _, le_refl _⟩
          · exact ⟨le_refl _, le_refl _, Nat.le_succ _, le_refl _, le_refl _⟩
        · split
          · exact ⟨le_refl _, Nat.le_add_right _ _, le_refl _, le_refl _,
              le_refl _⟩
          · exact ⟨le_refl _, Nat.le_succ _, le_refl _, le_refl _, le_refl _⟩

/-- C7 witness: a 403-blocked error record increments only the blocked
counter at a concrete stats value. -/
theorem claim_C7_witness :
    hasKey [("url", Val.str "u"), ("error", Val.str "HTTP 403")] "error" = true
      ∧ pyIn "403" (pyStr (pyGetD [("url", Val.str "u"),
          ("error", Val.str "HTTP 403")] "error" (Val.str ""))) = true
      ∧ update_stats_from_result ⟨5, 1, 2, 3, 4⟩
          (some [("url", Val.str "u"), ("error", Val.str "HTTP 403")])
        = ⟨5, 1, 2, 4, 4⟩ :=
  ⟨by decide, by decide,
    (claim_C7_stats_update ⟨5, 1, 2, 3, 4⟩).2.1
      [("url", Val.str "u"), ("error", Val.str "HTTP 403")] (by decide)
      (Or.inl (by decide))⟩

/-- C8: the retry delay `base_delay * backoff^attempt` computed by
`calculate_retry_delay` is strictly increasing in the attempt number
whenever the backoff multiplier exceeds 1 (with the positive base delay the
configuration provides). -/
theorem claim_C8_backoff_monotone (base backoff : ℚ) (i j : Nat)
    (hbase : 0 < base) (hback : 1 < backoff) (hij : i < j) :
    calculate_retry_delay base backoff i
      < calculate_retry_delay base backoff j := by
  unfold calculate_retry_delay
  have hpow : backoff ^ i < backoff ^ j := pow_lt_pow_right₀ hback hij
  exact mul_lt_mul_of_pos_left hpow hbase

/-- C8 witness: the delay grows from attempt 0 to attempt 1 for base 1 and
backoff 2. -/
theorem claim_C8_witness :
    (0 : ℚ) < 1 ∧ (1 : ℚ) < 2 ∧ (0 : Nat) < 1
      ∧ calculate_retry_delay 1 2 0 < calculate_retry_delay 1 2 1 :=
  ⟨by norm_num, by norm_num, by norm_num,
    claim_C8_backoff_monotone 1 2 0 1 (by norm_num) (by norm_num)
      (by norm_num)⟩

/-- C9: `_is_empty_value` decides emptiness only for `None`, strings and
lists — the boolean `False` and the number `0` are non-empty and therefore
overwrite any existing value in the merge, while the string `"false"` (any
case) is empty and never overwrites a non-empty existing value. -/
theorem claim_C9_falsy_values :
    (∀ nz : Int, is_empty_value (Val.int nz) = false)
  ∧ (∀ b : Bool, is_empty_value (Val.bool b) = false)
  ∧ (∀ s : String, pyLower (pyStrip s) = "false" →
        is_empty_value (Val.str s) = true)
  ∧ (is_empty_value (Val.str "False") = true
        ∧ is_empty_value (Val.str "FALSE") = true)
  ∧ (∀ (e : Dict) (k : String), is_valid_fieldname k = true →
        dictGet (merge_listing_data e [(k, Val.bool false)]) k
            = some (Val.bool false)
          ∧ dictGet (merge_listing_data e [(k, Val.int 0)]) k
            = some (Val.int 0))
  ∧ (∀ (e : Dict) (k : String), is_valid_fieldname k = true →
        is_empty_value (pyGet e k) = false →
        dictGet (merge_listing_data e [(k, Val.str "false")]) k
          = dictGet e k) := by
  refine ⟨fun nz => rfl, fun b => rfl, ?_, ⟨by decide, by decide⟩, ?_, ?_⟩
  · intro s h
    unfold is_empty_value
    simp [h]
  · intro e k hval
    constructor
    · show dictGet (merge_step e (k, Val.bool false)) k = some (Val.bool false)
      rw [merge_step_get_self]
      unfold mergeCell
      simp [hval, is_empty_value]
    · show dictGet (merge_step e (k, Val.int 0)) k = some (Val.int 0)
      rw [merge_step_get_self]
      unfold mergeCell
      simp [hval, is_empty_value]
  · intro e k hval hne
    show dictGet (merge_step e (k, Val.str "false")) k = dictGet e k
    rw [merge_step_get_self]
    unfold mergeCell
    have hgetd : (dictGet e k).getD Val.none ≠ Val.none := by
      intro hc
      unfold pyGet at hne
      rw [hc] at hne
      simp [is_empty_value] at hne
    unfold pyGet at hne
    have hemp : is_empty_value (Val.str "false") = true := by decide
    simp [hval, hemp, hgetd, hne]

/-- C9 witness: the boolean `False` overwrites a non-empty string value in a
concrete merge. -/
theorem claim_C9_witness :
    is_valid_fieldname "active" = true
      ∧ dictGet (merge_listing_data [("active", Val.str "yes")]
          [("active", Val.bool false)]) "active" = some (Val.bool false) :=
  ⟨by decide, (claim_C9_falsy_values.2.2.2.2.1 [("active", Val.str "yes")]
      "active" (by decide)).1⟩

/-- C10: if the union of valid field names after merging is empty,
`save_single_listing` returns without writing and the store is unchanged;
and every header it does write contains `url` and only valid field names, so
a written header never consists of synthetic `column_<digits>` names. -/
theorem claim_C10_header_guard (store : Store) (listing : Dict) :
    (all_fieldnames_single (save_merged_data store listing) listing = [] →
        save_single_listing_write store listing = Option.none
          ∧ save_single_listing_store store listing = store)
  ∧ (∀ fns data, save_single_listing_write store listing = some (fns, data) →
        "url" ∈ fns ∧ ∀ f ∈ fns, is_valid_fieldname f = true) := by
  constructor
  · intro hempty
    have hnone : save_single_listing_write store listing = Option.none := by
      unfold save_single_listing_write
      by_cases h1 : listing.isEmpty
      · simp [h1]
      · by_cases h2 : truthy (pyGet listing "url") = false
        · simp [h1, h2]
        · by_cases h3 : is_technical_error listing
          · simp [h1, h2, h3]
          · simp [h1, h2, h3, hempty]
    refine ⟨hnone, ?_⟩
    unfold save_single_listing_store
    rw [hnone]
  · intro fns data hw
    unfold save_single_listing_write at hw
    by_cases h1 : listing.isEmpty
    · simp [h1] at hw
    · by_cases h2 : truthy (pyGet listing "url") = false
      · simp [h1, h2] at hw
      · by_cases h3 : is_technical_error listing
        · simp [h1, h2, h3] at hw
        · by_cases h4 : (all_fieldnames_single
              (save_merged_data store listing) listing).isEmpty
          · simp [h1, h2, h3, h4] at hw
          · simp [h1, h2, h3, h4] at hw
            obtain ⟨hfns, hdata⟩ := hw
            subst hfns
            have h2t : truthy (pyGet listing "url") = true := by
              cases hb : truthy (pyGet listing "url")
              · exact absurd hb h2
              · rfl
            constructor
            · unfold all_fieldnames_single
              exact mem_sortedFieldSet.mpr
                (List.mem_append_right _ (truthy_url_mem_validKeys h2t))
            · intro f hf
              unfold all_fieldnames_single at hf
              rw [mem_sortedFieldSet] at hf
              rcases List.mem_append.mp hf with hf | hf
              · rcases mem_validKeysStore_iff.mp hf with ⟨p, hp, hfvk⟩
                exact valid_of_mem_validKeys hfvk
              · exact valid_of_mem_validKeys hf

/-- C10 witness: the empty-union guard fires on the empty listing against an
empty store and no write happens. -/
theorem claim_C10_witness :
    all_fieldnames_single (save_merged_data [] []) [] = []
      ∧ save_single_listing_write ([] : Store) ([] : Dict) = Option.none :=
  ⟨by decide, ((claim_C10_header_guard [] []).1 (by decide)).1⟩

end PVT
